import Mathlib

/-!
Verification development for the french-repetition-checker repository.

The Python modules `word_extractor.py`, `generate_repetitions_report.py`,
`word_classifier.py` and `lexicon_loader.py` are shallowly embedded below:
strings are `List Char`, character offsets are `Nat`, and fallible operations
return `Option`.  Exact Python numbers (ints, and float values where only
comparisons of decimal literals occur, as in the classifier's frequency
disambiguation) are embedded as `ℚ`; the adaptive-threshold computation of
`find_repetition_clusters`, whose float rounding is observable, is embedded
as IEEE-754 binary64 arithmetic over an explicit significand-exponent
representation (`PyFloat`).  Python's Unicode character predicates
(`str.isalpha`, `str.isdigit`, `str.isspace`, `str.isupper`, `str.islower`,
`str.lower`) are reproduced exactly on the code-point range U+0000..U+024F,
which is the Latin repertoire that `is_latin_letter` restricts the tokenizer
to; code points above U+024F do not occur in any concrete input considered
here.
-/

set_option maxRecDepth 10000

namespace FRC

/-- Strings are modelled as lists of characters. -/
abbrev Str := List Char

/-- Python `str.isspace` on U+0000..U+024F: tab..CR, the C1 separators
U+001C..U+001F, space, NEL (U+0085) and no-break space (U+00A0). -/
def pyIsSpace (c : Char) : Bool :=
  decide ((9 ≤ c.toNat ∧ c.toNat ≤ 13) ∨ c.toNat = 32 ∨
    (28 ≤ c.toNat ∧ c.toNat ≤ 31) ∨ c.toNat = 0x85 ∨ c.toNat = 0xA0)

/-- Python `str.isdigit` on U+0000..U+024F: ASCII digits plus the
superscript digits U+00B2, U+00B3, U+00B9. -/
def pyIsDigit (c : Char) : Bool :=
  decide ((0x30 ≤ c.toNat ∧ c.toNat ≤ 0x39) ∨
    c.toNat = 0xB2 ∨ c.toNat = 0xB3 ∨ c.toNat = 0xB9)

/-- The regex class `\d` (Unicode category Nd) on U+0000..U+024F:
exactly the ASCII digits. -/
def reIsDigit (c : Char) : Bool :=
  decide (0x30 ≤ c.toNat ∧ c.toNat ≤ 0x39)

/-- Embedding of `is_latin_letter` from word_extractor.py: `char.isalpha()` conjoined with
the range test `0x41 ≤ code ≤ 0x24F or code in range(0x61, 0x7B)`.  The
alphabetic code points inside U+0041..U+024F are A-Z, a-z, ª, µ, º,
À-Ö, Ø-ö and ø-ɏ (U+00F8..U+024F), spelled out here. -/
def is_latin_letter (c : Char) : Bool :=
  decide ((0x41 ≤ c.toNat ∧ c.toNat ≤ 0x5A) ∨ (0x61 ≤ c.toNat ∧ c.toNat ≤ 0x7A) ∨
    c.toNat = 0xAA ∨ c.toNat = 0xB5 ∨ c.toNat = 0xBA ∨
    (0xC0 ≤ c.toNat ∧ c.toNat ≤ 0xD6) ∨ (0xD8 ≤ c.toNat ∧ c.toNat ≤ 0xF6) ∨
    (0xF8 ≤ c.toNat ∧ c.toNat ≤ 0x24F))

/-- Python single-character `str.isupper` on U+0000..U+00FF
(A-Z, À-Ö, Ø-Þ); every concrete input below is within this range. -/
def pyCharIsUpper (c : Char) : Bool :=
  decide ((0x41 ≤ c.toNat ∧ c.toNat ≤ 0x5A) ∨
    (0xC0 ≤ c.toNat ∧ c.toNat ≤ 0xD6) ∨ (0xD8 ≤ c.toNat ∧ c.toNat ≤ 0xDE))

/-- Python single-character `str.islower` on U+0000..U+00FF
(a-z, ª, µ, º, ß-ö, ø-ÿ). -/
def pyCharIsLower (c : Char) : Bool :=
  decide ((0x61 ≤ c.toNat ∧ c.toNat ≤ 0x7A) ∨
    c.toNat = 0xAA ∨ c.toNat = 0xB5 ∨ c.toNat = 0xBA ∨
    (0xDF ≤ c.toNat ∧ c.toNat ≤ 0xF6) ∨ (0xF8 ≤ c.toNat ∧ c.toNat ≤ 0xFF))

/-- A character is cased if it is uppercase or lowercase. -/
def pyCharIsCased (c : Char) : Bool :=
  pyCharIsUpper c || pyCharIsLower c

/-- Python `str.isupper` for a whole string: at least one cased character and
no cased character lowercase. -/
def pyStrIsUpper (s : Str) : Bool :=
  s.any pyCharIsCased && s.all fun c => !pyCharIsCased c || pyCharIsUpper c

/-- Python `str.lower`, character by character, on U+0000..U+00FF:
A-Z, À-Ö and Ø-Þ shift by 0x20, everything else is fixed. -/
def pyLowerChar (c : Char) : Char :=
  if (0x41 ≤ c.toNat ∧ c.toNat ≤ 0x5A) ∨
      (0xC0 ≤ c.toNat ∧ c.toNat ≤ 0xD6) ∨ (0xD8 ≤ c.toNat ∧ c.toNat ≤ 0xDE) then
    Char.ofNat (c.toNat + 0x20)
  else c

/-- Python `str.lower` on a string. -/
def pyLower (s : Str) : Str := s.map pyLowerChar

/-- Python `str.strip()`: remove leading and trailing whitespace. -/
def pyStrip (s : Str) : Str :=
  ((s.dropWhile pyIsSpace).reverse.dropWhile pyIsSpace).reverse

/-! ## word_extractor.py -/

/-- The characters collected by `extract_potential_compound`:
Latin letters, hyphens and apostrophes (`is_latin_letter(c) or c in "-'"`). -/
def wordChar (c : Char) : Bool :=
  is_latin_letter c || c == '-' || c == Char.ofNat 39

/-- Letter-or-digit test used by the alphanumeric-acronym scan. -/
def letterOrDigit (c : Char) : Bool :=
  is_latin_letter c || pyIsDigit c

/-- The characters collected into a potential numeric run:
`text[temp_end].isdigit() or text[temp_end] in ' ,'`. -/
def numRunChar (c : Char) : Bool :=
  pyIsDigit c || c == ' ' || c == ','

/-- Whether `p` holds at index `i` of `text` (false past the end); models Python's
`i < len(text) and p(text[i])`. -/
def holdsAt (p : Char → Bool) (text : Str) (i : ℕ) : Bool :=
  match text.get? i with
  | some c => p c
  | none => false

/-- The inner `for _ in range(n_words)` loop of the space-compound search in
`extract_words`: starting at `pos`, repeat `n` times: skip whitespace, stop if
at the end of text or not at a Latin letter, otherwise take a maximal run of
word characters.  Returns the words taken and the final scan position (the
position is only used by the caller when all `n` words were obtained). -/
def grabWords (text : Str) (pos : ℕ) : ℕ → List Str × ℕ
  | 0 => ([], pos)
  | n + 1 =>
    let pos1 := pos + ((text.drop pos).takeWhile pyIsSpace).length
    if holdsAt is_latin_letter text pos1 then
      let w := (text.drop pos1).takeWhile wordChar
      let res := grabWords text (pos1 + w.length) n
      (w :: res.1, res.2)
    else ([], pos1)

/-- Python's `' '.join(words)`. -/
def joinSp : List Str → Str
  | [] => []
  | [w] => w
  | w :: ws => w ++ ' ' :: joinSp ws

/-- The `for n_words in range(max_words_to_test, 1, -1)` loop of
`extract_words`: probe each candidate length in `ns` (called with
`[5, 4, 3, 2]`), returning the space-joined surface form and its end position
for the first length whose space-joined lowercase form is a known compound. -/
def tryCompoundLens (text : Str) (comps : List Str) (i : ℕ) :
    List ℕ → Option (Str × ℕ)
  | [] => none
  | n :: rest =>
    let res := grabWords text i n
    if res.1.length == n && comps.contains (pyLower (joinSp res.1)) then
      some (joinSp res.1, res.2)
    else tryCompoundLens text comps i rest

/-- Truthiness of the optional word sets (`if lexicon_words:` /
`if compounds_with_spaces:`): present and non-empty. -/
def optTruthy (o : Option (List Str)) : Bool :=
  match o with
  | some l => !l.isEmpty
  | none => false

/-- Matcher for the tail `(?:\s\d+)*(?:,\d+)?$` of the grouped-number regex.
The first argument is fuel; each recursive step consumes at least one
character, so fuel equal to the input length always suffices. -/
def numGroups : ℕ → Str → Bool
  | _, [] => true
  | 0, _ :: _ => false
  | f + 1, c :: rest =>
    if pyIsSpace c then
      match rest with
      | [] => false
      | d :: r2 => reIsDigit d && numGroups f (r2.dropWhile reIsDigit)
    else if c == ',' then
      match rest with
      | [] => false
      | d :: r2 => reIsDigit d && (r2.dropWhile reIsDigit).isEmpty
    else false

/-- Embedding of `is_number_with_separators` from word_extractor.py: the stripped text
matches `^\d+(?:\s\d+)*(?:,\d+)?$`.  The regex is deterministic (no
backtracking is ever needed: a maximal `\d+` munch is always safe because no
group starts with a digit), so it is implemented by maximal-munch parsing. -/
def is_number_with_separators (s : Str) : Bool :=
  match pyStrip s with
  | [] => false
  | c :: r => reIsDigit c && numGroups r.length (r.dropWhile reIsDigit)

/-- A token: `(surfaceForm, startOffset, endOffset)`. -/
abbrev Token := Str × ℕ × ℕ

/-- The body of the `while i < len(text)` scan loop of `extract_words`,
with explicit fuel.  Every iteration that does not return advances `i` by at
least one, so `text.length + 1` fuel (as supplied by `extract_words`) is
always enough. -/
def extractGo (text : Str) (lexicon_words compounds_with_spaces : Option (List Str)) :
    ℕ → ℕ → List Token
  | 0, _ => []
  | fuel + 1, i0 =>
    -- skip characters that are neither Latin letters nor digits
    let i := i0 + ((text.drop i0).takeWhile (fun c => !(is_latin_letter c || pyIsDigit c))).length
    match text.get? i with
    | none => []
    | some c =>
      if is_latin_letter c then
        match (if optTruthy compounds_with_spaces then
                tryCompoundLens text (compounds_with_spaces.getD []) i [5, 4, 3, 2]
              else none) with
        | some we =>
          -- space-separated compound found: emit the joined form
          (we.1, i, we.2) :: extractGo text lexicon_words compounds_with_spaces fuel we.2
        | none =>
          -- hyphen/apostrophe compound (extract_potential_compound)
          let pc := (text.drop i).takeWhile wordChar
          if optTruthy lexicon_words && (lexicon_words.getD []).contains (pyLower pc) then
            (pc, i, i + pc.length) ::
              extractGo text lexicon_words compounds_with_spaces fuel (i + pc.length)
          else
            let letters := (text.drop i).takeWhile is_latin_letter
            if letters.any pyCharIsUpper && holdsAt pyIsDigit text (i + letters.length) then
              -- alphanumeric acronym: keep scanning letters and digits
              let an := (text.drop i).takeWhile letterOrDigit
              (an, i, i + an.length) ::
                extractGo text lexicon_words compounds_with_spaces fuel (i + an.length)
            else
              (letters, i, i + letters.length) ::
                extractGo text lexicon_words compounds_with_spaces fuel (i + letters.length)
      else if pyIsDigit c then
        let run := (text.drop i).takeWhile numRunChar
        if is_number_with_separators run then
          (pyStrip run, i, i + run.length) ::
            extractGo text lexicon_words compounds_with_spaces fuel (i + run.length)
        else
          let ds := (text.drop i).takeWhile pyIsDigit
          (ds, i, i + ds.length) ::
            extractGo text lexicon_words compounds_with_spaces fuel (i + ds.length)
      else
        []  -- unreachable: the skip loop stops only at a letter or digit

/-- Embedding of `extract_words` from word_extractor.py. -/
def extract_words (text : Str)
    (lexicon_words compounds_with_spaces : Option (List Str)) : List Token :=
  extractGo text lexicon_words compounds_with_spaces (text.length + 1) 0

/-! ## generate_repetitions_report.py: find_repetition_clusters -/

/-- An occurrence as consumed by `find_repetition_clusters`: a `(word, start,
end)` triple; only the two offsets are inspected. -/
abbrev Pos := Str × ℤ × ℤ

/-- Python's builtin `max` on two numbers (`max(a, b)` returns `b` exactly
when `a < b`). -/
def pyMax (a b : ℚ) : ℚ := if a < b then b else a

/-- Python's builtin `min` on two numbers. -/
def pyMin (a b : ℚ) : ℚ := if b < a then b else a

/-- Floor of a rational, computed from its reduced fraction (the integer
division `/` on `ℤ` rounds toward negative infinity and `q.den > 0`). -/
def ratFloor (q : ℚ) : ℤ := q.num / (q.den : ℤ)

/-- Python `int()` on an exact number: truncation toward zero. -/
def pyInt (q : ℚ) : ℤ :=
  if 0 ≤ q then ratFloor q else -(ratFloor (-q))

/-! ### Python floats (IEEE-754 binary64)

`find_repetition_clusters` computes its adaptive threshold in Python float
arithmetic, and the rounding is observable (for example
`int(10 * 5.5 * (23 / 5))` is `252` in Python although the exact value is
`253`).  A binary64 value is modelled as an integer significand times a power
of two, `num * 2^exp`, with every operation rounding the exact result to 53
significant bits with round-to-nearest, ties-to-even — exactly IEEE-754
binary64 for results in the normal range (overflow to infinity and subnormal
underflow cannot be reached by the magnitudes this program computes). -/

/-- A binary64 value `num * 2^exp` (`num = 0` is zero; operations keep
`|num| ≤ 2^53`). -/
structure PyFloat where
  num : ℤ
  exp : ℤ
deriving DecidableEq

/-- The exact rational value of a binary64 number. -/
def dval (x : PyFloat) : ℚ :=
  if 0 ≤ x.exp then mkRat (x.num * 2 ^ x.exp.toNat) 1
  else mkRat x.num (2 ^ (-x.exp).toNat)

/-- Bit length of a natural number (`0` for `0`); the first argument is
fuel, consumed once per halving, so fuel `n` always suffices for input `n`. -/
def bitLenF : ℕ → ℕ → ℕ
  | 0, _ => 0
  | f + 1, n => if n = 0 then 0 else bitLenF f (n / 2) + 1

/-- Bit length: `n < 2 ^ bitLen n` and `2 ^ (bitLen n - 1) ≤ n` for `n ≥ 1`.

The fuel argument of `bitLenF` only has to dominate the number of halvings,
so passing `n` itself is always enough. -/
def bitLen (n : ℕ) : ℕ := bitLenF n n

/-- Floor of the base-2 logarithm of `a / b` (for `a, b ≥ 1`), from the bit
lengths of `a` and `b` plus one comparison. -/
def floorLog2Frac (a b : ℕ) : ℤ :=
  let d := bitLen a
  let e := bitLen b
  if e ≤ d then
    (if b * 2 ^ (d - e) ≤ a then ((d - e : ℕ) : ℤ) else ((d - e : ℕ) : ℤ) - 1)
  else
    (if b ≤ a * 2 ^ (e - d) then -((e - d : ℕ) : ℤ) else -((e - d : ℕ) : ℤ) - 1)

/-- Round `n / d` (naturals, `d ≥ 1`) to the nearest integer, ties to
even. -/
def roundHalfEvenDiv (n d : ℕ) : ℕ :=
  let q := n / d
  let r := n % d
  if 2 * r < d then q
  else if d < 2 * r then q + 1
  else if q % 2 = 0 then q else q + 1

/-- Round the exact value `m * 2^e` to 53 significant bits, ties to even
(identity when `m` already fits; this is the single IEEE rounding step of a
product of two binary64 numbers). -/
def dnorm (m e : ℤ) : PyFloat :=
  if m = 0 then ⟨0, 0⟩
  else
    let a := m.natAbs
    let len := bitLen a
    if len ≤ 53 then ⟨m, e⟩
    else
      let k := len - 53
      let q := a / 2 ^ k
      let r := a % 2 ^ k
      let half := 2 ^ (k - 1)
      let q2 := if half < r ∨ (r = half ∧ q % 2 = 1) then q + 1 else q
      ⟨if m < 0 then -(q2 : ℤ) else (q2 : ℤ), e + (k : ℤ)⟩

/-- Binary64 multiplication: the exact product rounded once. -/
def dmul (x y : PyFloat) : PyFloat :=
  dnorm (x.num * y.num) (x.exp + y.exp)

/-- Binary64 division (`y` nonzero in every use; Python raises on a zero
divisor): the exact quotient is scaled into `[2^52, 2^53)` and rounded once,
ties to even. -/
def ddiv (x y : PyFloat) : PyFloat :=
  if x.num = 0 then ⟨0, 0⟩
  else
    let a := x.num.natAbs
    let b := y.num.natAbs
    let s : ℤ := 52 - floorLog2Frac a b
    let m := if 0 ≤ s then roundHalfEvenDiv (a * 2 ^ s.toNat) b
      else roundHalfEvenDiv a (b * 2 ^ (-s).toNat)
    let sgn : Bool := decide (0 ≤ x.num) == decide (0 ≤ y.num)
    ⟨if sgn then (m : ℤ) else -(m : ℤ), x.exp - y.exp - s⟩

/-- Conversion of a Python `int` to binary64 (exact below `2^53`, rounded
above, as in CPython). -/
def dofNat (n : ℕ) : PyFloat := dnorm n 0

/-- Conversion of an exact rational to the nearest binary64 (used for the
`max_distance` argument: a Python `int` converts this way when multiplied by
a float, and a value that is already a float is left unchanged). -/
def dofRat (q : ℚ) : PyFloat := ddiv ⟨q.num, 0⟩ ⟨(q.den : ℤ), 0⟩

/-- Binary64 comparison: IEEE comparisons compare the exact values. -/
def dlt (x y : PyFloat) : Bool := decide (dval x < dval y)

/-- Python's builtin `max` on two floats (`max(a, b)` returns `b` exactly
when `a < b`). -/
def pyMaxD (a b : PyFloat) : PyFloat := if dlt a b then b else a

/-- Python's builtin `min` on two floats. -/
def pyMinD (a b : PyFloat) : PyFloat := if dlt b a then b else a

/-- The float literal `0.2` of the Python source: the nearest binary64 to
`1/5`, which correctly-rounded division also yields. -/
def d02 : PyFloat := ddiv ⟨1, 0⟩ ⟨5, 0⟩

/-- The float literal `5.5` (exactly representable). -/
def d55 : PyFloat := ⟨11, -1⟩

/-- The adaptive threshold of `find_repetition_clusters`, computed as Python
does: `adjustment_factor = 23 / total` (float division), clamped by
`max(0.2, min(5.0, ·))`, then `max_distance * 5.5 * adjustment_factor`
evaluated left to right in binary64 and truncated by `int(...)`. -/
def adaptiveThreshold (max_distance : ℚ) (total : ℕ) : PyFloat :=
  let adjustment_factor := ddiv (dofNat 23) (dofNat total)
  let clamped := pyMaxD d02 (pyMinD (dofNat 5) adjustment_factor)
  dmul (dmul (dofRat max_distance) d55) clamped

/-- Embedding of `sorted(positions, key=lambda x: x[1])`: a stable sort by start offset
(insertion sort with a non-strict comparison is stable, like Python's
`sorted`). -/
def sortByStart (positions : List Pos) : List Pos :=
  List.insertionSort (fun a b => a.2.1 ≤ b.2.1) positions

/-- The greedy clustering loop of `find_repetition_clusters`: `prev` is the
previously visited occurrence (always the last member of `current`), and a
cluster is emitted only when it has at least `minSize` members. -/
def buildClusters (adaptive : ℤ) (minSize : ℕ) :
    Pos → List Pos → List Pos → List (List Pos)
  | _, current, [] => if minSize ≤ current.length then [current] else []
  | prev, current, p :: rest =>
    if p.2.1 - prev.2.2 ≤ adaptive then
      buildClusters adaptive minSize p (current ++ [p]) rest
    else
      (if minSize ≤ current.length then [current] else []) ++
        buildClusters adaptive minSize p [p] rest

/-- Embedding of `find_repetition_clusters` from generate_repetitions_report.py.
The adaptive threshold is computed in binary64 float arithmetic, as Python
does, then truncated by `int(...)`.  `text_length` is accepted (as in the
Python signature) and never used. -/
def find_repetition_clusters (positions : List Pos) (max_distance : ℚ)
    (min_occurrences : ℕ) (text_length : Option ℤ) : List (List Pos) :=
  let min_cluster_size := max 2 min_occurrences
  if positions.length < min_cluster_size then []
  else
    let adaptive_max_distance : ℤ :=
      pyInt (dval (adaptiveThreshold max_distance positions.length))
    match sortByStart positions with
    | [] => []
    | h :: t => buildClusters adaptive_max_distance min_cluster_size h [h] t

/-- The clustering loop as the spec words it, with the exact (real-valued)
adaptive threshold instead of the code's `int(...)`-truncated one. -/
def buildClustersSpec (threshold : ℚ) (minSize : ℕ) :
    Pos → List Pos → List Pos → List (List Pos)
  | _, current, [] => if minSize ≤ current.length then [current] else []
  | prev, current, p :: rest =>
    if ((p.2.1 - prev.2.2 : ℤ) : ℚ) ≤ threshold then
      buildClustersSpec threshold minSize p (current ++ [p]) rest
    else
      (if minSize ≤ current.length then [current] else []) ++
        buildClustersSpec threshold minSize p [p] rest

/-- The procedure `FindClusters` exactly as the claim words it:
`effectiveMinSize = max(2, minOccurrences)`; `adaptiveMaxDistance =
baseMaxDistance × 5.5 × clamp(23 / totalOccurrenceCount, 0.2, 5.0)` in exact
real arithmetic (no float rounding, no truncation); sort by start offset;
chain each occurrence to its predecessor when `currentStart - previousEnd ≤
adaptiveMaxDistance`. -/
def find_repetition_clusters_spec (occurrences : List Pos)
    (baseMaxDistance : ℚ) (minOccurrences : ℕ) : List (List Pos) :=
  let effectiveMinSize := max 2 minOccurrences
  if occurrences.length < effectiveMinSize then []
  else
    let adjustmentFactor : ℚ := pyMax 0.2 (pyMin 5.0 (23 / (occurrences.length : ℚ)))
    let adaptiveMaxDistance : ℚ := baseMaxDistance * 5.5 * adjustmentFactor
    match sortByStart occurrences with
    | [] => []
    | h :: t => buildClustersSpec adaptiveMaxDistance effectiveMinSize h [h] t

/-- The spec's clustering procedure with the threshold the program actually
computes: the binary64 value of `baseMaxDistance * 5.5 *
clamp(23 / totalOccurrenceCount, 0.2, 5.0)` (Python float arithmetic, no
`int(...)` truncation), compared against the gaps as an exact rational. -/
def find_repetition_clusters_float_spec (occurrences : List Pos)
    (baseMaxDistance : ℚ) (minOccurrences : ℕ) : List (List Pos) :=
  let effectiveMinSize := max 2 minOccurrences
  if occurrences.length < effectiveMinSize then []
  else
    let adaptiveMaxDistance : ℚ :=
      dval (adaptiveThreshold baseMaxDistance occurrences.length)
    match sortByStart occurrences with
    | [] => []
    | h :: t => buildClustersSpec adaptiveMaxDistance effectiveMinSize h [h] t

/-! ## lexicon_loader.py and word_classifier.py: data model -/

/-- Embedding of `LexiconEntry` from lexicon_loader.py.  `freq` is optional because the
classifier guards against a missing frequency (`e.freq if e.freq is not None
else 0.0`). -/
structure LexiconEntry where
  ortho : Str
  lemme : Str
  cgram : Str
  freq : Option ℚ
  is_lem : Bool
deriving DecidableEq

/-- A value of the `_custom_entries` mapping attached to a `Lexicon` by
generate_repetitions_report.py (`{'lemme': ..., 'cgram': ..., 'ortho': ...}`). -/
structure CustomEntry where
  lemme : Str
  cgram : Str
  ortho : Str
deriving DecidableEq

/-- The `Lexicon` object: `self.entries` is a dict from ortho to the list of
entries appended in file order; it is modelled extensionally by the flat entry
list in file order, with `lookup` filtering by ortho (which returns exactly
the dict bucket, in the same order).  `custom` models the optional
`_custom_entries` attribute (`hasattr` check). -/
structure Lexicon where
  entries : List LexiconEntry
  custom : Option (List (Str × CustomEntry))
deriving DecidableEq

/-- Embedding of `Lexicon.lookup`: `self.entries.get(word, [])`. -/
def lookup (lex : Lexicon) (word : Str) : List LexiconEntry :=
  lex.entries.filter (fun e => e.ortho == word)

/-- Embedding of `Lexicon.lookup_case_insensitive`: `self.entries.get(word.lower(), [])`
(the keys keep their original case; only the probe is lowercased). -/
def lookup_case_insensitive (lex : Lexicon) (word : Str) : List LexiconEntry :=
  lex.entries.filter (fun e => e.ortho == pyLower word)

/-- Embedding of `Lexicon.find_lemma_entry`: the first entry with `ortho = lemma` and
`is_lem` true, if any. -/
def find_lemma_entry (lex : Lexicon) (lem : Str) : Option LexiconEntry :=
  (lookup lex lem).find? (fun e => e.is_lem)

/-! ## word_classifier.py -/

/-- Python `str.isalpha` on U+0000..U+024F: on this range (no alphabetic code
points exist below U+0041) it coincides with `is_latin_letter`. -/
def pyIsAlpha (c : Char) : Bool := is_latin_letter c

/-- Embedding of `normalize_ligatures`: œ→oe, æ→ae, Œ→Oe, Æ→Ae.  The four sequential
`str.replace` calls cannot interfere (no replacement output contains a
ligature), so they collapse to one character-wise expansion. -/
def normalize_ligatures (word : Str) : Str :=
  word.flatMap fun c =>
    if c == 'œ' then "oe".toList
    else if c == 'æ' then "ae".toList
    else if c == 'Œ' then "Oe".toList
    else if c == 'Æ' then "Ae".toList
    else [c]

/-- Embedding of `is_number` from word_classifier.py: no alphabetic character, and after
removing spaces and commas a non-empty all-digit string remains. -/
def is_number (word : Str) : Bool :=
  if word.any pyIsAlpha then false
  else
    let cleaned := word.filter (fun c => !(c == ' ') && !(c == ','))
    !cleaned.isEmpty && cleaned.all pyIsDigit

/-- Embedding of `is_acronym`: contains a letter, `str.isupper`, and length at least 2. -/
def is_acronym (word : Str) : Bool :=
  word.any pyIsAlpha && pyStrIsUpper word && decide (1 < word.length)

/-- Embedding of `is_proper_noun`: non-empty, initial uppercase, length at least 2, and
some later character lowercase. -/
def is_proper_noun (word : Str) : Bool :=
  match word with
  | [] => false
  | c :: rest => pyCharIsUpper c && decide (1 < word.length) && rest.any pyCharIsLower

/-- The three classification statuses of `WordClassification`. -/
inductive WCStatus where
  | unknown
  | ambiguous
  | classified
deriving DecidableEq

/-- Embedding of `WordClassification` from word_classifier.py. -/
structure WordClassification where
  word : Str
  status : WCStatus
  cgram : Option Str
  entry : Option LexiconEntry
  entry_count : ℕ
deriving DecidableEq

instance : Inhabited WordClassification := ⟨⟨[], .unknown, none, none, 0⟩⟩

/-- The mutable state of a `WordClassifier`: the acronym and proper-noun
registries (Python sets of lowercase forms; modelled as lists, queried only
through membership). -/
structure ClassifierState where
  acronyms : List Str
  proper_nouns : List Str
deriving DecidableEq

/-- Embedding of `WordClassifier._register_word_variant`. -/
def register_word_variant (st : ClassifierState) (word original_word : Str) :
    ClassifierState :=
  if is_acronym original_word then { st with acronyms := word :: st.acronyms }
  else if is_proper_noun original_word then
    { st with proper_nouns := word :: st.proper_nouns }
  else st

/-- Embedding of `WordClassifier._resolve_classification`: proper noun beats acronym. -/
def resolve_classification (st : ClassifierState) (word original_word : Str) :
    Option Str :=
  let word_lower := pyLower word
  if st.proper_nouns.contains word_lower then some ("NOM:prop".toList)
  else if st.acronyms.contains word_lower then some ("NOM:acro".toList)
  else if is_acronym original_word then some ("NOM:acro".toList)
  else if is_proper_noun original_word then some ("NOM:prop".toList)
  else none

/-- The key of `max(entries, key=lambda e: e.freq if e.freq is not None else
0.0)`. -/
def keyFreq (e : LexiconEntry) : ℚ := e.freq.getD 0

/-- Python's builtin `max` with a key over a non-empty list (`best` is the
running maximum, replaced only on strictly greater keys, so the first
occurrence of the maximal key wins); implements
`_disambiguate_by_frequency`. -/
def max_by_freq (best : LexiconEntry) : List LexiconEntry → LexiconEntry
  | [] => best
  | e :: rest => max_by_freq (if keyFreq best < keyFreq e then e else best) rest

/-- Embedding of `WordClassifier._classify_single_entry`. -/
def classify_single_entry (lex : Lexicon) (word : Str) (entry : LexiconEntry)
    (max_depth : ℤ) : WordClassification :=
  if max_depth ≤ 0 then ⟨word, .unknown, none, none, 1⟩
  else if entry.is_lem then ⟨word, .classified, some entry.cgram, some entry, 1⟩
  else
    match find_lemma_entry lex entry.lemme with
    | none => ⟨word, .classified, some entry.cgram, some entry, 1⟩
    | some lemma_entry => ⟨word, .classified, some lemma_entry.cgram, some lemma_entry, 1⟩

/-- Lookup in the `_custom_entries` mapping (absent attribute, or key not
present, gives `none`). -/
def customLookup (lex : Lexicon) (key : Str) : Option CustomEntry :=
  match lex.custom with
  | none => none
  | some m => (m.find? (fun kv => kv.1 == key)).map (fun kv => kv.2)

/-- Embedding of `WordClassifier.classify_word`.  The classifier object is threaded
explicitly: the returned state reflects the registration done on
dictionary-miss. -/
def classify_word (lex : Lexicon) (st : ClassifierState) (word : Str)
    (case_sensitive disambiguateByFrequency : Bool) :
    WordClassification × ClassifierState :=
  if is_number word then
    (⟨word, .classified, some ("NUM".toList), none, 0⟩, st)
  else
    let word_normalized := normalize_ligatures word
    match customLookup lex (pyLower word_normalized) with
    | some ce =>
      let fake_entry : LexiconEntry := ⟨ce.ortho, ce.lemme, ce.cgram, some 100, true⟩
      (⟨word, .classified, some ce.cgram, some fake_entry, 1⟩, st)
    | none =>
      let entries := if case_sensitive then lookup lex word_normalized
        else lookup_case_insensitive lex word_normalized
      match entries with
      | [] =>
        let st1 := register_word_variant st (pyLower word) word
        match resolve_classification st1 (pyLower word) word with
        | some cg => (⟨word, .classified, some cg, none, 0⟩, st1)
        | none => (⟨word, .unknown, none, none, 0⟩, st1)
      | [e] => (classify_single_entry lex word e 10, st)
      | e :: rest =>
        if disambiguateByFrequency then
          (classify_single_entry lex word (max_by_freq e rest) 10, st)
        else
          (⟨word, .ambiguous, none, none, entries.length⟩, st)

/-- First pass of `WordClassifier.classify_words`: register every word that
misses the dictionary. -/
def classify_words_pass1 (lex : Lexicon) (st0 : ClassifierState)
    (words : List Str) (case_sensitive : Bool) : ClassifierState :=
  words.foldl
    (fun st w =>
      let word_lower := if case_sensitive then w else pyLower w
      let entries := if case_sensitive then lookup lex w
        else lookup_case_insensitive lex w
      if entries.length == 0 then register_word_variant st word_lower w else st)
    st0

/-- Embedding of `WordClassifier.classify_words`: two passes; the second pass classifies
each not-yet-seen key (insertion-ordered association list models the result
dict). -/
def classify_words (lex : Lexicon) (st0 : ClassifierState) (words : List Str)
    (case_sensitive : Bool) :
    List (Str × WordClassification) × ClassifierState :=
  let st1 := classify_words_pass1 lex st0 words case_sensitive
  words.foldl
    (fun acc w =>
      let word_key := if case_sensitive then w else pyLower w
      if (acc.1.find? (fun kv => kv.1 == word_key)).isSome then acc
      else
        let r := classify_word lex acc.2 w case_sensitive false
        (acc.1 ++ [(word_key, r.1)], r.2))
    ([], st1)

/-- Lookup in the classification dict returned by `classify_words`. -/
def findClassification (m : List (Str × WordClassification)) (k : Str) :
    Option WordClassification :=
  (m.find? (fun kv => kv.1 == k)).map (fun kv => kv.2)

/-! ## Loading: `Lexicon._load_lexicon` and `load_custom_lexicon`

The CSV rows are modelled as records of already-split fields (`none` = the
column is missing from the row, raising `KeyError` on access in Python).
Numeric parsing (`float(...)` / `int(...)`) is abstracted by parameters
`pf : Str → Option ℚ` and `pint : Str → Option ℤ` (`none` = the call raises
`ValueError`); every theorem below holds for all such parsers. -/

/-- A row of the base dictionary TSV, with the fields `_load_lexicon` reads. -/
structure BaseRow where
  ortho : Str
  lemme : Str
  cgram : Str
  freqField : Option Str
  islemField : Option Str
deriving DecidableEq

/-- The frequency conversion of `_load_lexicon`: `float(row[...])` with
`ValueError`/`KeyError` giving the default `0.0`. -/
def rowFreq (pf : Str → Option ℚ) (r : BaseRow) : ℚ :=
  match r.freqField with
  | none => 0
  | some s => (pf s).getD 0

/-- The flag conversion of `_load_lexicon`: `bool(int(row[...]))` with
`ValueError`/`KeyError` giving the default `False`. -/
def rowIsLem (pint : Str → Option ℤ) (r : BaseRow) : Bool :=
  match r.islemField with
  | none => false
  | some s =>
    match pint s with
    | none => false
    | some n => n != 0

/-- The `LexiconEntry` built from one base-dictionary row. -/
def mkBaseEntry (pf : Str → Option ℚ) (pint : Str → Option ℤ)
    (r : BaseRow) : LexiconEntry :=
  ⟨r.ortho, r.lemme, r.cgram, some (rowFreq pf r), rowIsLem pint r⟩

/-- Embedding of `Lexicon._load_lexicon`: every row yields exactly one entry, in order
(the per-ortho dict buckets are recovered by `lookup`). -/
def load_lexicon (pf : Str → Option ℚ) (pint : Str → Option ℤ)
    (rows : List BaseRow) : List LexiconEntry :=
  rows.map (mkBaseEntry pf pint)

/-- A row of a custom/user overlay TSV as seen by `load_custom_lexicon`
(`csv.DictReader` row: `none` = missing column). -/
structure CustomRow where
  orthoField : Option Str
  lemmeField : Option Str
  cgramField : Option Str
  freqField : Option Str
  islemField : Option Str
deriving DecidableEq

/-- A value of the dict built by `load_custom_lexicon`. -/
structure ReportCustomEntry where
  categorie : Str
  lemme : Str
  cgram : Str
  freq : ℚ
  is_lem : ℤ
  ortho_original : Str
deriving DecidableEq

/-- The categories recognised by `load_custom_lexicon`. -/
def specialCategories : List Str :=
  ["NOM_PROPRE".toList, "ACRONYME".toList, "ETRANGER".toList, "INCONNU".toList]

/-- Python dict assignment `d[k] = v`: overwrite in place, or append. -/
def replaceOrAppend (m : List (Str × ReportCustomEntry)) (k : Str)
    (v : ReportCustomEntry) : List (Str × ReportCustomEntry) :=
  match m with
  | [] => [(k, v)]
  | kv :: rest => if kv.1 == k then (k, v) :: rest else kv :: replaceOrAppend rest k v

/-- The row loop of `load_custom_lexicon`: skip rows with empty stripped
ortho; abort (`return None`) on a missing column or an unparseable numeric
field; otherwise insert the entry keyed by the lowercased ortho. -/
def load_custom_lexicon_go (pf : Str → Option ℚ) (pint : Str → Option ℤ) :
    List CustomRow → List (Str × ReportCustomEntry) →
    Option (List (Str × ReportCustomEntry))
  | [], acc => some acc
  | r :: rest, acc =>
    let ortho := pyStrip (r.orthoField.getD [])
    if ortho.isEmpty then load_custom_lexicon_go pf pint rest acc
    else
      match r.lemmeField, r.cgramField, r.freqField, r.islemField with
      | some lemme, some cgram, some freq, some islem =>
        let cgramS := pyStrip cgram
        let categorie := if specialCategories.contains cgramS then cgramS
          else "INCONNU".toList
        match pf freq, pint islem with
        | some freq_value, some is_lem_value =>
          load_custom_lexicon_go pf pint rest
            (replaceOrAppend acc (pyLower ortho)
              ⟨categorie, pyStrip lemme, cgramS, freq_value, is_lem_value, ortho⟩)
        | _, _ => none
      | _, _, _, _ => none

/-- Embedding of `load_custom_lexicon` from generate_repetitions_report.py (the
file-exists and I/O-error paths are outside the model; `none` is the
`return None` abort). -/
def load_custom_lexicon (pf : Str → Option ℚ) (pint : Str → Option ℤ)
    (rows : List CustomRow) : Option (List (Str × ReportCustomEntry)) :=
  load_custom_lexicon_go pf pint rows []

/-- A custom-overlay row that triggers the abort: its stripped ortho is
non-empty, and some required column is missing or a numeric field fails to
parse. -/
def malformedCustomRow (pf : Str → Option ℚ) (pint : Str → Option ℤ)
    (r : CustomRow) : Prop :=
  (pyStrip (r.orthoField.getD [])).isEmpty = false ∧
    (r.lemmeField = none ∨ r.cgramField = none ∨ r.freqField = none ∨
      r.islemField = none ∨
      (∃ s, r.freqField = some s ∧ pf s = none) ∨
      (∃ s, r.islemField = some s ∧ pint s = none))

/-! ## Theorems about find_repetition_clusters (claims C2, C4, C10) -/

/-- Every cluster emitted by the greedy loop has at least `minSize` members. -/
theorem buildClusters_mem_length (adaptive : ℤ) (minSize : ℕ) :
    ∀ (rest : List Pos) (prev : Pos) (current : List Pos)
      (c : List Pos), c ∈ buildClusters adaptive minSize prev current rest →
      minSize ≤ c.length := by
  intro rest
  induction rest with
  | nil =>
    intro prev current c hc
    simp only [buildClusters] at hc
    split at hc
    · next h => rcases List.mem_singleton.mp hc with rfl; exact h
    · exact absurd hc (List.not_mem_nil c)
  | cons p rest ih =>
    intro prev current c hc
    simp only [buildClusters] at hc
    split at hc
    · exact ih p (current ++ [p]) c hc
    · rcases List.mem_append.mp hc with h | h
      · split at h
        · next hg => rcases List.mem_singleton.mp h with rfl; exact hg
        · exact absurd h (List.not_mem_nil c)
      · exact ih p [p] c h

/-- C2: every cluster returned by `find_repetition_clusters` has at least
`max 2 min_occurrences` members (so never a singleton cluster), and an input
with fewer than `max 2 min_occurrences` occurrences (in particular a single
occurrence) yields the empty list. -/
theorem find_repetition_clusters_min_size (positions : List Pos)
    (max_distance : ℚ) (min_occurrences : ℕ) (text_length : Option ℤ) :
    (∀ c ∈ find_repetition_clusters positions max_distance min_occurrences
      text_length, max 2 min_occurrences ≤ c.length) ∧
    (positions.length < max 2 min_occurrences →
      find_repetition_clusters positions max_distance min_occurrences
        text_length = []) := by
  constructor
  · intro c hc
    simp only [find_repetition_clusters] at hc
    split at hc
    · exact absurd hc (List.not_mem_nil c)
    · split at hc
      · exact absurd hc (List.not_mem_nil c)
      · exact buildClusters_mem_length _ _ _ _ _ _ hc
  · intro h
    simp only [find_repetition_clusters]
    rw [if_pos h]

/-- Witness for C2 at a one-element input: a single occurrence yields no
cluster. -/
theorem find_repetition_clusters_min_size_witness :
    find_repetition_clusters [("a".toList, 0, 1)] 200 2 none = [] :=
  (find_repetition_clusters_min_size [("a".toList, 0, 1)] 200 2 none).2
    (by decide)

/-- For a nonnegative rational threshold, comparing an integer gap with the
Python-truncated threshold is the same as comparing with the exact
threshold. -/
theorem le_pyInt_iff (g : ℤ) (q : ℚ) (hq : 0 ≤ q) :
    g ≤ pyInt q ↔ (g : ℚ) ≤ q := by
  have hfloor : ratFloor q = ⌊q⌋ := Rat.floor_def.symm
  rw [pyInt, if_pos hq, hfloor]
  exact Int.le_floor

/-- The greedy loop is insensitive to replacing the truncated threshold by
the exact one, whenever the two comparisons agree on every integer gap. -/
theorem buildClusters_eq_spec (adaptive : ℤ) (threshold : ℚ)
    (h : ∀ g : ℤ, g ≤ adaptive ↔ (g : ℚ) ≤ threshold) (minSize : ℕ) :
    ∀ (rest : List Pos) (prev : Pos) (current : List Pos),
      buildClusters adaptive minSize prev current rest =
      buildClustersSpec threshold minSize prev current rest := by
  intro rest
  induction rest with
  | nil => intro prev current; rfl
  | cons p rest ih =>
    intro prev current
    simp only [buildClusters, buildClustersSpec]
    by_cases hg : p.2.1 - prev.2.2 ≤ adaptive
    · have hg' : ((p.2.1 - prev.2.2 : ℤ) : ℚ) ≤ threshold := (h _).mp hg
      rw [if_pos hg, if_pos hg', ih]
    · have hg' : ¬ ((p.2.1 - prev.2.2 : ℤ) : ℚ) ≤ threshold :=
        fun hc => hg ((h _).mpr hc)
      rw [if_neg hg, if_neg hg', ih]

/-- Rounding to 53 bits keeps a nonnegative significand nonnegative. -/
theorem dnorm_num_nonneg (m e : ℤ) (h : 0 ≤ m) : 0 ≤ (dnorm m e).num := by
  by_cases hm : m = 0
  · simp [dnorm, hm]
  · simp only [dnorm, if_neg hm]
    by_cases hlen : bitLen m.natAbs ≤ 53
    · simpa [hlen] using h
    · have hneg : ¬ m < 0 := by omega
      simp only [if_neg hlen, hneg, if_false]
      have hq : 0 ≤ |m| / (2 ^ (bitLen m.natAbs - 53) : ℤ) :=
        Int.ediv_nonneg (abs_nonneg m) (by positivity)
      simp [hneg]
      split <;> omega

/-- Binary64 division of values with nonnegative significands is
nonnegative. -/
theorem ddiv_num_nonneg (x y : PyFloat) (hx : 0 ≤ x.num) (hy : 0 ≤ y.num) :
    0 ≤ (ddiv x y).num := by
  by_cases h0 : x.num = 0
  · simp [ddiv, h0]
  · simp only [ddiv, if_neg h0]
    simp [hx, hy]
    split <;> exact Int.natCast_nonneg _

/-- Binary64 multiplication of values with nonnegative significands is
nonnegative. -/
theorem dmul_num_nonneg (x y : PyFloat) (hx : 0 ≤ x.num) (hy : 0 ≤ y.num) :
    0 ≤ (dmul x y).num :=
  dnorm_num_nonneg _ _ (mul_nonneg hx hy)

/-- Converted naturals have nonnegative significands. -/
theorem dofNat_num_nonneg (n : ℕ) : 0 ≤ (dofNat n).num :=
  dnorm_num_nonneg _ _ (Int.natCast_nonneg n)

/-- Conversion of a nonnegative rational has a nonnegative significand. -/
theorem dofRat_num_nonneg (q : ℚ) (h : 0 ≤ q) : 0 ≤ (dofRat q).num :=
  ddiv_num_nonneg _ _ (Rat.num_nonneg.mpr h) (Int.natCast_nonneg q.den)

/-- `max` of floats with nonnegative significands. -/
theorem pyMaxD_num_nonneg (a b : PyFloat) (ha : 0 ≤ a.num) (hb : 0 ≤ b.num) :
    0 ≤ (pyMaxD a b).num := by
  unfold pyMaxD
  split <;> assumption

/-- `min` of floats with nonnegative significands. -/
theorem pyMinD_num_nonneg (a b : PyFloat) (ha : 0 ≤ a.num) (hb : 0 ≤ b.num) :
    0 ≤ (pyMinD a b).num := by
  unfold pyMinD
  split <;> assumption

/-- A float with nonnegative significand has a nonnegative value. -/
theorem dval_nonneg (x : PyFloat) (h : 0 ≤ x.num) : 0 ≤ dval x := by
  unfold dval
  split
  · rw [Rat.mkRat_eq_div]
    apply div_nonneg
    · exact_mod_cast mul_nonneg h (by positivity)
    · norm_num
  · rw [Rat.mkRat_eq_div]
    apply div_nonneg
    · exact_mod_cast h
    · positivity

/-- For a nonnegative base distance the adaptive float threshold is
nonnegative. -/
theorem adaptiveThreshold_nonneg (md : ℚ) (total : ℕ) (h : 0 ≤ md) :
    0 ≤ dval (adaptiveThreshold md total) := by
  apply dval_nonneg
  unfold adaptiveThreshold
  apply dmul_num_nonneg
  · apply dmul_num_nonneg
    · exact dofRat_num_nonneg _ h
    · norm_num [d55]
  · apply pyMaxD_num_nonneg
    · decide
    · apply pyMinD_num_nonneg
      · exact dofNat_num_nonneg 5
      · exact ddiv_num_nonneg _ _ (dofNat_num_nonneg 23) (dofNat_num_nonneg total)

/-- Counterexample to C4 as stated: the program computes the threshold in
binary64 floats, not exact arithmetic.  With `baseMaxDistance = 10` and five
occurrences whose gaps are exactly 253, Python evaluates
`int(10 * 5.5 * (23 / 5)) = int(252.99999999999997) = 252` and returns no
cluster, while the claim's exact threshold `10 × 5.5 × 4.6 = 253` would chain
all five occurrences into one cluster. -/
theorem find_repetition_clusters_exact_threshold_counterexample :
    find_repetition_clusters
      [("a".toList, 0, 0), ("a".toList, 253, 253), ("a".toList, 506, 506),
        ("a".toList, 759, 759), ("a".toList, 1012, 1012)] 10 2 none = [] ∧
    find_repetition_clusters_spec
      [("a".toList, 0, 0), ("a".toList, 253, 253), ("a".toList, 506, 506),
        ("a".toList, 759, 759), ("a".toList, 1012, 1012)] 10 2 =
      [[("a".toList, 0, 0), ("a".toList, 253, 253), ("a".toList, 506, 506),
        ("a".toList, 759, 759), ("a".toList, 1012, 1012)]] := by
  constructor
  · decide
  · norm_num [find_repetition_clusters_spec, sortByStart, List.insertionSort,
      List.orderedInsert, buildClustersSpec, pyMax, pyMin]

/-- C4 (amended): for a nonnegative base distance, whenever enough
occurrences are present `find_repetition_clusters` uses the threshold
`baseMaxDistance * 5.5 * clamp(23 / totalOccurrenceCount, 0.2, 5.0)`
evaluated in binary64 float arithmetic (as Python does), and after sorting by
start offset places each subsequent occurrence in the same cluster as its
predecessor exactly when `currentStart - previousEnd` is at most that float
threshold (transitive chaining against the previous member), emitting only
clusters with at least `max 2 minOccurrences` members.  (The code truncates
the threshold with `int(...)`; with integer offsets this never changes a
comparison against a nonnegative threshold.) -/
theorem find_repetition_clusters_eq_float_spec (positions : List Pos)
    (max_distance : ℚ) (min_occurrences : ℕ) (text_length : Option ℤ)
    (hmd : 0 ≤ max_distance) :
    find_repetition_clusters positions max_distance min_occurrences
      text_length =
    find_repetition_clusters_float_spec positions max_distance
      min_occurrences := by
  simp only [find_repetition_clusters, find_repetition_clusters_float_spec]
  split
  · rfl
  · have hτ := adaptiveThreshold_nonneg max_distance positions.length hmd
    split
    · rfl
    · exact buildClusters_eq_spec _ _ (fun g => le_pyInt_iff g _ hτ) _ _ _ _

/-- Witness for C4 (amended) at a concrete input. -/
theorem find_repetition_clusters_eq_float_spec_witness :
    find_repetition_clusters [("a".toList, 0, 1), ("a".toList, 5, 6)]
      200 2 none =
    find_repetition_clusters_float_spec [("a".toList, 0, 1), ("a".toList, 5, 6)]
      200 2 :=
  find_repetition_clusters_eq_float_spec
    [("a".toList, 0, 1), ("a".toList, 5, 6)] 200 2 none (by norm_num)

/-- C10: the `text_length` parameter of `find_repetition_clusters` is dead:
the result depends only on the positions, the base distance and the minimum
occurrence count. -/
theorem find_repetition_clusters_ignores_text_length (positions : List Pos)
    (max_distance : ℚ) (min_occurrences : ℕ) (t1 t2 : Option ℤ) :
    find_repetition_clusters positions max_distance min_occurrences t1 =
    find_repetition_clusters positions max_distance min_occurrences t2 := rfl

/-! ## Theorems about extract_words (claims C1, C3, C6) -/

/-- Counterexample to C3 as stated: `"12 34 56,78,90"` indeed does not
tokenize as one token, but its final token is `"78,90"` — the tail re-parses
as a grouped number — so not every emitted token is a pure digit run. -/
theorem extract_words_digit_runs_counterexample :
    extract_words ("12 34 56,78,90".toList) none none =
      [("12".toList, 0, 2), ("34".toList, 3, 5), ("56".toList, 6, 8),
        ("78,90".toList, 9, 14)] ∧
    ¬ (∀ t ∈ extract_words ("12 34 56,78,90".toList) none none,
        t.1.all pyIsDigit = true) := by decide

/-- C3 (amended): `"8 000"`, `"41,195"` and `"1 234 567,89"` each tokenize as
a single token; `"12 34 56,78,90"` is rejected by the grouped-number grammar
and splits into the four tokens `12`, `34`, `56` and `78,90` (the excess
separators re-enter the scan, and the trailing `78,90` re-parses as a grouped
number, so the split is into maximal digit runs except for a final
grouped-number token). -/
theorem extract_words_numeric_grammar :
    extract_words ("8 000".toList) none none = [("8 000".toList, 0, 5)] ∧
    extract_words ("41,195".toList) none none = [("41,195".toList, 0, 6)] ∧
    extract_words ("1 234 567,89".toList) none none =
      [("1 234 567,89".toList, 0, 12)] ∧
    extract_words ("12 34 56,78,90".toList) none none =
      [("12".toList, 0, 2), ("34".toList, 3, 5), ("56".toList, 6, 8),
        ("78,90".toList, 9, 14)] := by decide

/-- C6: with multi-word forms `{"a priori", "a priori test"}`, the text
`"a priori test"` yields exactly one token, the 3-word form (candidate
lengths are probed from 5 words down to 2, so the longest hit wins). -/
theorem extract_words_longest_compound :
    extract_words ("a priori test".toList) none
      (some ["a priori".toList, "a priori test".toList]) =
    [("a priori test".toList, 0, 13)] := by decide

/-- Joining a word onto a non-empty tail inserts exactly one space. -/
theorem joinSp_length_cons (w : Str) (ws : List Str) (h : ws ≠ []) :
    (joinSp (w :: ws)).length = w.length + 1 + (joinSp ws).length := by
  cases ws with
  | nil => exact absurd rfl h
  | cons v vs =>
    show (w ++ ' ' :: joinSp (v :: vs)).length = _
    simp only [List.length_append, List.length_cons]
    omega

/-- The character right after a maximal `takeWhile` run fails the
predicate. -/
theorem takeWhile_stop (p : Char → Bool) :
    ∀ (l : List Char) (c : Char),
      l.get? (l.takeWhile p).length = some c → p c = false := by
  intro l
  induction l with
  | nil => intro c h; simp at h
  | cons d l ih =>
    intro c h
    cases hp : p d with
    | true =>
      rw [show (d :: l).takeWhile p = d :: l.takeWhile p by
        simp [List.takeWhile_cons, hp]] at h
      exact ih c (by simpa using h)
    | false =>
      rw [show (d :: l).takeWhile p = [] by simp [List.takeWhile_cons, hp]] at h
      have : d = c := by simpa using h
      exact this ▸ hp

/-- Latin letters are word characters. -/
theorem is_latin_letter_wordChar {c : Char} (h : is_latin_letter c = true) :
    wordChar c = true := by
  simp [wordChar, h]

/-- Stripping only shortens a string. -/
theorem pyStrip_length_le (s : Str) : (pyStrip s).length ≤ s.length := by
  unfold pyStrip
  rw [List.length_reverse]
  calc ((s.dropWhile pyIsSpace).reverse.dropWhile pyIsSpace).length
      ≤ (s.dropWhile pyIsSpace).reverse.length :=
        (List.dropWhile_sublist _).length_le
    _ = (s.dropWhile pyIsSpace).length := List.length_reverse _
    _ ≤ s.length := (List.dropWhile_sublist _).length_le

/-- When the space-compound scan obtains all `n ≥ 1` requested words, the
space-joined surface fits inside the scanned span: between two consecutive
words the scan skipped at least one whitespace character (a maximal word run
stops only at a non-word character), and the join inserts exactly one. -/
theorem grabWords_bound (text : Str) :
    ∀ (n pos : ℕ), (grabWords text pos n).1.length = n → 1 ≤ n →
      pos + ((text.drop pos).takeWhile pyIsSpace).length +
        (joinSp (grabWords text pos n).1).length ≤ (grabWords text pos n).2 := by
  intro n
  induction n with
  | zero => intro pos _ h1; exact absurd h1 (by omega)
  | succ n ih =>
    intro pos hlen _
    cases hL : holdsAt is_latin_letter text
        (pos + ((text.drop pos).takeWhile pyIsSpace).length) with
    | false =>
      exfalso
      simp only [grabWords, hL] at hlen
      simp at hlen
    | true =>
      simp only [grabWords, hL, if_true] at hlen ⊢
      set sp := ((text.drop pos).takeWhile pyIsSpace).length with hsp
      set w := (text.drop (pos + sp)).takeWhile wordChar with hw
      set pos2 := pos + sp + w.length with hpos2
      have hlen' : (grabWords text pos2 n).1.length = n := by simpa using hlen
      cases n with
      | zero =>
        simp only [grabWords, joinSp]
        omega
      | succ m =>
        have hIH := ih pos2 hlen' (by omega)
        have hstop : ∀ c, text.get? pos2 = some c → wordChar c = false := by
          intro c hc
          apply takeWhile_stop wordChar (text.drop (pos + sp))
          rw [List.get?_drop]
          exact hc
        have hsp2 : 1 ≤ ((text.drop pos2).takeWhile pyIsSpace).length := by
          by_contra hz
          have hsp2z : ((text.drop pos2).takeWhile pyIsSpace).length = 0 := by omega
          cases hL2 : holdsAt is_latin_letter text
              (pos2 + ((text.drop pos2).takeWhile pyIsSpace).length) with
          | false =>
            simp only [grabWords, hL2] at hlen'
            simp at hlen'
          | true =>
            rw [hsp2z, Nat.add_zero] at hL2
            unfold holdsAt at hL2
            cases hgc : text.get? pos2 with
            | none => rw [hgc] at hL2; simp at hL2
            | some c =>
              rw [hgc] at hL2
              have hwc := hstop c hgc
              rw [is_latin_letter_wordChar hL2] at hwc
              simp at hwc
        have hne : (grabWords text pos2 (m + 1)).1 ≠ [] := by
          intro hnil
          rw [hnil] at hlen'
          simp at hlen'
        rw [joinSp_length_cons _ _ hne]
        omega

/-- When the compound probe succeeds (for candidate lengths all ≥ 1), the
joined surface fits within the reported span. -/
theorem tryCompoundLens_bound (text : Str) (comps : List Str) (i : ℕ) :
    ∀ (ns : List ℕ), (∀ n ∈ ns, 1 ≤ n) →
      ∀ w e, tryCompoundLens text comps i ns = some (w, e) →
      i + w.length ≤ e := by
  intro ns
  induction ns with
  | nil => intro _ w e h; simp [tryCompoundLens] at h
  | cons n rest ih =>
    intro hns w e h
    simp only [tryCompoundLens] at h
    split at h
    · next hcond =>
      simp only [Option.some.injEq, Prod.mk.injEq] at h
      obtain ⟨h1, h2⟩ := h
      subst h1
      subst h2
      have hlen : (grabWords text i n).1.length = n := by
        simpa using ((Bool.and_eq_true _ _).mp hcond).1
      have hb := grabWords_bound text n i hlen (hns n (List.mem_cons_self n rest))
      omega
    · exact ih (fun m hm => hns m (List.mem_cons_of_mem n hm)) w e h

/-- Each token emitted by the scan loop spans at least its surface length:
the only branches where the span strictly exceeds the surface are the numeric
branch (trailing separators are stripped from the surface but stay inside the
span) and the space-compound branch (runs of more than one whitespace
character are joined with a single space). -/
theorem extractGo_span_le (text : Str) (lex comps : Option (List Str)) :
    ∀ (fuel i0 : ℕ) (t : Token),
      t ∈ extractGo text lex comps fuel i0 → t.2.1 + t.1.length ≤ t.2.2 := by
  intro fuel
  induction fuel with
  | zero => intro i0 t ht; simp [extractGo] at ht
  | succ fuel ih =>
    intro i0 t ht
    simp only [extractGo] at ht
    split at ht
    · exact absurd ht (List.not_mem_nil t)
    · split at ht
      · -- Latin-letter branch
        split at ht
        · -- space-separated compound found
          next we heq =>
          rcases List.mem_cons.mp ht with rfl | ht
          · split at heq
            · exact tryCompoundLens_bound text _ _ [5, 4, 3, 2]
                (by decide) we.1 we.2 heq
            · exact absurd heq (by simp)
          · exact ih _ t ht
        · -- no space compound
          split at ht
          · -- hyphen/apostrophe compound in the lexicon
            rcases List.mem_cons.mp ht with rfl | ht
            · dsimp only; omega
            · exact ih _ t ht
          · split at ht
            · -- alphanumeric acronym
              rcases List.mem_cons.mp ht with rfl | ht
              · dsimp only; omega
              · exact ih _ t ht
            · -- plain letter run
              rcases List.mem_cons.mp ht with rfl | ht
              · dsimp only; omega
              · exact ih _ t ht
      · split at ht
        · -- digit branch
          split at ht
          · -- grouped number: the surface is the stripped run
            rcases List.mem_cons.mp ht with rfl | ht
            · have := pyStrip_length_le
                ((text.drop (i0 + ((text.drop i0).takeWhile
                  (fun c => !(is_latin_letter c || pyIsDigit c))).length)).takeWhile numRunChar)
              dsimp only
              omega
            · exact ih _ t ht
          · -- plain digit run
            rcases List.mem_cons.mp ht with rfl | ht
            · dsimp only; omega
            · exact ih _ t ht
        · exact absurd ht (List.not_mem_nil t)

/-- C1 (amended): every token `(surfaceForm, startOffset, endOffset)`
returned by `extract_words` satisfies
`startOffset + len(surfaceForm) ≤ endOffset`.  Equality can fail: the numeric
branch emits the stripped run as surface while the span keeps trailing
separator characters, and the space-compound branch joins word groups with
single spaces while the span covers the original (possibly wider)
whitespace. -/
theorem extract_words_span_le (text : Str) (lex comps : Option (List Str)) :
    ∀ t ∈ extract_words text lex comps, t.2.1 + t.1.length ≤ t.2.2 :=
  fun t ht => extractGo_span_le text lex comps _ 0 t ht

/-- Witness for C1 (amended) on the text `"1 a"`: the numeric token
`("1", 0, 2)` satisfies the span inequality. -/
theorem extract_words_span_le_witness :
    (0 : ℕ) + ("1".toList).length ≤ 2 :=
  extract_words_span_le ("1 a".toList) none none ("1".toList, 0, 2) (by decide)

/-- Counterexample to C1 as stated: on the text `"1 a"` the numeric branch
strips the trailing space from the surface but keeps it inside the span, so
the token `("1", 0, 2)` has `endOffset - startOffset = 2 ≠ 1 =
len(surfaceForm)`. -/
theorem extract_words_span_eq_counterexample :
    extract_words ("1 a".toList) none none =
      [("1".toList, 0, 2), ("a".toList, 2, 3)] ∧
    ¬ (∀ t ∈ extract_words ("1 a".toList) none none,
        t.2.2 - t.2.1 = t.1.length) := by decide

/-! ## Theorems about the classifier (claims C5, C7, C8) -/

/-- C5: for any lexicon without custom entries in which the form `joan`
(case-insensitively) has no dictionary entry, batch-classifying
`["JOAN", "Joan"]` with `case_sensitive = false` produces, at the lowercase
key `"joan"` covering both forms, a classification with category `NOM:prop`
— and the reversed input order `["Joan", "JOAN"]` produces the same status
and category. -/
theorem classify_words_proper_noun_unification (lex : Lexicon)
    (hcustom : lex.custom = none)
    (hmiss : lex.entries.filter (fun e => e.ortho == ("joan".toList)) = []) :
    (findClassification
        ((classify_words lex ⟨[], []⟩ ["JOAN".toList, "Joan".toList] false).1)
        ("joan".toList)).map (fun c => (c.status, c.cgram)) =
      some (WCStatus.classified, some ("NOM:prop".toList)) ∧
    (findClassification
        ((classify_words lex ⟨[], []⟩ ["Joan".toList, "JOAN".toList] false).1)
        ("joan".toList)).map (fun c => (c.status, c.cgram)) =
      some (WCStatus.classified, some ("NOM:prop".toList)) := by
  have c0 : ∀ k, customLookup lex k = none := by
    intro k; unfold customLookup; rw [hcustom]
  have e1 : lookup_case_insensitive lex ("JOAN".toList) = [] := by
    unfold lookup_case_insensitive
    rw [show pyLower ("JOAN".toList) = "joan".toList by decide]
    exact hmiss
  have e2 : lookup_case_insensitive lex ("Joan".toList) = [] := by
    unfold lookup_case_insensitive
    rw [show pyLower ("Joan".toList) = "joan".toList by decide]
    exact hmiss
  have n1 : normalize_ligatures ("JOAN".toList) = "JOAN".toList := by decide
  have n2 : normalize_ligatures ("Joan".toList) = "Joan".toList := by decide
  have i1 : is_number ("JOAN".toList) = false := by decide
  have i2 : is_number ("Joan".toList) = false := by decide
  constructor <;>
  · simp only [classify_words, classify_words_pass1, List.foldl, classify_word,
      i1, i2, n1, n2, c0, e1, e2, Bool.false_eq_true, if_false]
    decide

/-- Witness for C5 with the empty dictionary. -/
theorem classify_words_proper_noun_unification_witness :
    (findClassification
        ((classify_words ⟨[], none⟩ ⟨[], []⟩ ["JOAN".toList, "Joan".toList] false).1)
        ("joan".toList)).map (fun c => (c.status, c.cgram)) =
      some (WCStatus.classified, some ("NOM:prop".toList)) ∧
    (findClassification
        ((classify_words ⟨[], none⟩ ⟨[], []⟩ ["Joan".toList, "JOAN".toList] false).1)
        ("joan".toList)).map (fun c => (c.status, c.cgram)) =
      some (WCStatus.classified, some ("NOM:prop".toList)) :=
  classify_words_proper_noun_unification ⟨[], none⟩ rfl rfl

/-- The entry selected by Python's `max` fold is among the candidates. -/
theorem max_by_freq_mem (l : List LexiconEntry) :
    ∀ best, max_by_freq best l ∈ best :: l := by
  induction l with
  | nil => intro best; simp [max_by_freq]
  | cons e t ih =>
    intro best
    simp only [max_by_freq]
    rcases List.mem_cons.mp (ih (if keyFreq best < keyFreq e then e else best))
      with h | h
    · rw [h]
      split_ifs
      · exact List.mem_cons_of_mem best (List.mem_cons_self e t)
      · exact List.mem_cons_self best (e :: t)
    · exact List.mem_cons_of_mem best (List.mem_cons_of_mem e h)

/-- The entry selected by Python's `max` fold has a maximal key. -/
theorem max_by_freq_max (l : List LexiconEntry) :
    ∀ best, ∀ y ∈ best :: l, keyFreq y ≤ keyFreq (max_by_freq best l) := by
  induction l with
  | nil =>
    intro best y hy
    rcases List.mem_cons.mp hy with rfl | hy
    · exact le_refl _
    · exact absurd hy (List.not_mem_nil y)
  | cons e t ih =>
    intro best y hy
    simp only [max_by_freq]
    have hb : keyFreq best ≤ keyFreq (if keyFreq best < keyFreq e then e else best) := by
      split_ifs with hc
      · exact le_of_lt hc
      · exact le_refl _
    have he : keyFreq e ≤ keyFreq (if keyFreq best < keyFreq e then e else best) := by
      split_ifs with hc
      · exact le_refl _
      · exact le_of_not_lt hc
    have hhead := ih (if keyFreq best < keyFreq e then e else best) _
      (List.mem_cons_self _ t)
    rcases List.mem_cons.mp hy with rfl | hy
    · exact le_trans hb hhead
    · rcases List.mem_cons.mp hy with rfl | hy
      · exact le_trans he hhead
      · exact ih _ y (List.mem_cons_of_mem _ hy)

/-- First-encountered tie-breaking of Python's `max` fold: every candidate
strictly before the selected one has a strictly smaller key. -/
theorem max_by_freq_first (l : List LexiconEntry) :
    ∀ best, ∃ pre post, best :: l = pre ++ (max_by_freq best l) :: post ∧
      ∀ y ∈ pre, keyFreq y < keyFreq (max_by_freq best l) := by
  induction l with
  | nil =>
    intro best
    exact ⟨[], [], rfl, by intro y hy; exact absurd hy (List.not_mem_nil y)⟩
  | cons e t ih =>
    intro best
    simp only [max_by_freq]
    by_cases hc : keyFreq best < keyFreq e
    · rw [if_pos hc]
      obtain ⟨pre, post, heq, hpre⟩ := ih e
      refine ⟨best :: pre, post, by rw [List.cons_append, ← heq], ?_⟩
      intro y hy
      have hsel : keyFreq e ≤ keyFreq (max_by_freq e t) :=
        max_by_freq_max t e e (List.mem_cons_self e t)
      rcases List.mem_cons.mp hy with rfl | hy
      · exact lt_of_lt_of_le hc hsel
      · exact hpre y hy
    · rw [if_neg hc]
      obtain ⟨pre, post, heq, hpre⟩ := ih best
      cases pre with
      | nil =>
        rw [List.nil_append] at heq
        injection heq with h1 h2
        refine ⟨[], e :: t, ?_, by intro y hy; exact absurd hy (List.not_mem_nil y)⟩
        rw [List.nil_append, ← h1]
      | cons p pre' =>
        rw [List.cons_append] at heq
        injection heq with hbp ht
        refine ⟨best :: e :: pre', post, ?_, ?_⟩
        · rw [List.cons_append, List.cons_append, ← ht]
        · intro y hy
          have hp : keyFreq best < keyFreq (max_by_freq best t) :=
            hbp ▸ hpre p (List.mem_cons_self p pre')
          rcases List.mem_cons.mp hy with rfl | hy
          · exact hp
          · rcases List.mem_cons.mp hy with rfl | hy
            · exact lt_of_le_of_lt (le_of_not_lt hc) hp
            · exact hpre y (List.mem_cons_of_mem p hy)

/-- C7: when a non-numeric word without custom entry has a dictionary lookup
with at least two entries: with `disambiguate_by_frequency = true`,
`classify_word` resolves through the entry with the highest frequency, ties
broken by first-encountered order in the entry list (every entry before the
selected one has a strictly smaller key); in particular for candidate
frequencies `[0.5, 3.2, 1.1]` in any order, the entry with frequency `3.2`
is always the one selected; with `disambiguate_by_frequency = false`, the
result is `Ambiguous` carrying the candidate count. -/
theorem classify_word_frequency_disambiguation (lex : Lexicon)
    (st : ClassifierState) (word : Str) (case_sensitive : Bool)
    (entries : List LexiconEntry)
    (hnum : is_number word = false)
    (hcustom : customLookup lex (pyLower (normalize_ligatures word)) = none)
    (hE : (if case_sensitive then lookup lex (normalize_ligatures word)
      else lookup_case_insensitive lex (normalize_ligatures word)) = entries)
    (hlen : 2 ≤ entries.length) :
    (∃ sel,
      (classify_word lex st word case_sensitive true).1 =
        classify_single_entry lex word sel 10 ∧
      sel ∈ entries ∧ (∀ y ∈ entries, keyFreq y ≤ keyFreq sel) ∧
      ∃ pre post, entries = pre ++ sel :: post ∧
        ∀ y ∈ pre, keyFreq y < keyFreq sel) ∧
    (classify_word lex st word case_sensitive false).1 =
      ⟨word, .ambiguous, none, none, entries.length⟩ ∧
    (∀ e1 e2 e3 : LexiconEntry, entries.Perm [e1, e2, e3] →
      e1.freq = some (1/2) → e2.freq = some (16/5) → e3.freq = some (11/10) →
      (classify_word lex st word case_sensitive true).1 =
        classify_single_entry lex word e2 10) := by
  cases entries with
  | nil => exact absurd hlen (by simp)
  | cons e rest =>
    cases rest with
    | nil => exact absurd hlen (by simp)
    | cons f t =>
      have hcw : ∀ b : Bool, classify_word lex st word case_sensitive b =
          (if b then (classify_single_entry lex word (max_by_freq e (f :: t)) 10, st)
           else (⟨word, .ambiguous, none, none, (e :: f :: t).length⟩, st)) := by
        intro b
        simp only [classify_word, hnum, Bool.false_eq_true, if_false, hcustom, hE]
      refine ⟨⟨max_by_freq e (f :: t), ?_, ?_, ?_, ?_⟩, ?_, ?_⟩
      · rw [hcw true]; simp
      · exact max_by_freq_mem (f :: t) e
      · exact max_by_freq_max (f :: t) e
      · exact max_by_freq_first (f :: t) e
      · rw [hcw false]; simp
      · intro e1 e2 e3 hperm h1 h2 h3
        have hmem : max_by_freq e (f :: t) ∈ [e1, e2, e3] :=
          hperm.mem_iff.mp (max_by_freq_mem (f :: t) e)
        have he2 : e2 ∈ e :: f :: t := hperm.mem_iff.mpr (by simp)
        have hmax := max_by_freq_max (f :: t) e e2 he2
        have k1 : keyFreq e1 = 1 / 2 := by simp [keyFreq, h1]
        have k2 : keyFreq e2 = 16 / 5 := by simp [keyFreq, h2]
        have k3 : keyFreq e3 = 11 / 10 := by simp [keyFreq, h3]
        simp only [List.mem_cons, List.not_mem_nil, or_false] at hmem
        have hsel2 : max_by_freq e (f :: t) = e2 := by
          rcases hmem with h | h | h
          · exfalso; rw [h, k1, k2] at hmax; norm_num at hmax
          · exact h
          · exfalso; rw [h, k3, k2] at hmax; norm_num at hmax
        rw [hcw true, hsel2]; simp

/-- Witness for C7: two entries for the same ortho give `Ambiguous` with
candidate count 2 when disambiguation is off. -/
theorem classify_word_frequency_disambiguation_witness :
    (classify_word
        ⟨[⟨"ab".toList, "ab".toList, "NOM".toList, some 1, true⟩,
          ⟨"ab".toList, "ab".toList, "VER".toList, some 3, true⟩], none⟩
        ⟨[], []⟩ ("ab".toList) true false).1 =
      ⟨"ab".toList, .ambiguous, none, none, 2⟩ :=
  (classify_word_frequency_disambiguation
      ⟨[⟨"ab".toList, "ab".toList, "NOM".toList, some 1, true⟩,
        ⟨"ab".toList, "ab".toList, "VER".toList, some 3, true⟩], none⟩
      ⟨[], []⟩ ("ab".toList) true
      [⟨"ab".toList, "ab".toList, "NOM".toList, some 1, true⟩,
        ⟨"ab".toList, "ab".toList, "VER".toList, some 3, true⟩]
      (by decide) rfl (by decide) (by decide)).2.1

/-- C8: single-entry classification: an `is_lem` entry is classified with its
own category; a non-`is_lem` entry chases its declared lemma — if the
dictionary has an `is_lem` entry whose ortho equals the declared lemma, that
entry's category (and the entry itself, hence its lemma) is used, otherwise
the original entry's own category; a non-positive depth cap gives `Unknown`;
the function is total (never raises), and the dangling case is exactly
`lookup` containing no `is_lem` entry for the lemma. -/
theorem classify_single_entry_spec (lex : Lexicon) (word : Str)
    (entry : LexiconEntry) (d : ℤ) :
    (0 < d → entry.is_lem = true →
      classify_single_entry lex word entry d =
        ⟨word, .classified, some entry.cgram, some entry, 1⟩) ∧
    (0 < d → entry.is_lem = false →
      ∀ le, find_lemma_entry lex entry.lemme = some le →
        classify_single_entry lex word entry d =
          ⟨word, .classified, some le.cgram, some le, 1⟩) ∧
    (0 < d → entry.is_lem = false →
      find_lemma_entry lex entry.lemme = none →
      classify_single_entry lex word entry d =
        ⟨word, .classified, some entry.cgram, some entry, 1⟩) ∧
    (d ≤ 0 →
      classify_single_entry lex word entry d = ⟨word, .unknown, none, none, 1⟩) ∧
    (find_lemma_entry lex entry.lemme = none ↔
      ∀ e ∈ lookup lex entry.lemme, e.is_lem = false) := by
  refine ⟨?_, ?_, ?_, ?_, ?_⟩
  · intro hd hl
    simp [classify_single_entry, hl, not_le.mpr hd]
  · intro hd hl le hle
    simp [classify_single_entry, hl, hle, not_le.mpr hd]
  · intro hd hl hle
    simp [classify_single_entry, hl, hle, not_le.mpr hd]
  · intro hd
    simp [classify_single_entry, hd]
  · unfold find_lemma_entry
    rw [List.find?_eq_none]
    constructor
    · intro h e he
      have := h e he
      simpa using this
    · intro h e he
      simp [h e he]

/-- Witness for C8: an `is_lem` entry classifies by its own category. -/
theorem classify_single_entry_spec_witness :
    classify_single_entry ⟨[], none⟩ ("chat".toList)
      ⟨"chat".toList, "chat".toList, "NOM".toList, some 1, true⟩ 10 =
    ⟨"chat".toList, .classified, some ("NOM".toList),
      some ⟨"chat".toList, "chat".toList, "NOM".toList, some 1, true⟩, 1⟩ :=
  (classify_single_entry_spec ⟨[], none⟩ ("chat".toList)
    ⟨"chat".toList, "chat".toList, "NOM".toList, some 1, true⟩ 10).1
    (by norm_num) rfl

/-! ## Theorems about loading (claim C9) -/

/-- Reaching any malformed row aborts the custom-overlay load. -/
theorem load_custom_lexicon_go_abort (pf : Str → Option ℚ)
    (pint : Str → Option ℤ) :
    ∀ (rows : List CustomRow) (acc : List (Str × ReportCustomEntry)),
      (∃ r ∈ rows, malformedCustomRow pf pint r) →
      load_custom_lexicon_go pf pint rows acc = none := by
  intro rows
  induction rows with
  | nil =>
    intro acc h
    obtain ⟨r, hr, _⟩ := h
    exact absurd hr (List.not_mem_nil r)
  | cons r rest ih =>
    intro acc h
    simp only [load_custom_lexicon_go]
    by_cases ho : (pyStrip (r.orthoField.getD [])).isEmpty = true
    · rw [if_pos ho]
      apply ih
      obtain ⟨r0, hr0, hm⟩ := h
      rcases List.mem_cons.mp hr0 with rfl | hr0
      · rw [hm.1] at ho; exact absurd ho (by simp)
      · exact ⟨r0, hr0, hm⟩
    · rw [if_neg ho]
      cases hl : r.lemmeField with
      | none => simp [hl]
      | some lemme =>
        cases hc : r.cgramField with
        | none => simp [hl, hc]
        | some cgram =>
          cases hf : r.freqField with
          | none => simp [hl, hc, hf]
          | some freq =>
            cases hi : r.islemField with
            | none => simp [hl, hc, hf, hi]
            | some islem =>
              cases hpf : pf freq with
              | none => simp [hl, hc, hf, hi, hpf]
              | some fv =>
                cases hpi : pint islem with
                | none => simp [hl, hc, hf, hi, hpf, hpi]
                | some iv =>
                  simp only [hl, hc, hf, hi, hpf, hpi]
                  apply ih
                  obtain ⟨r0, hr0, hm⟩ := h
                  rcases List.mem_cons.mp hr0 with rfl | hr0
                  · exfalso
                    rcases hm.2 with h' | h' | h' | h' | ⟨s, hs, hps⟩ | ⟨s, hs, hps⟩
                    · rw [hl] at h'; exact Option.noConfusion h'
                    · rw [hc] at h'; exact Option.noConfusion h'
                    · rw [hf] at h'; exact Option.noConfusion h'
                    · rw [hi] at h'; exact Option.noConfusion h'
                    · rw [hf] at hs
                      cases hs
                      rw [hpf] at hps
                      exact Option.noConfusion hps
                    · rw [hi] at hs
                      cases hs
                      rw [hpi] at hps
                      exact Option.noConfusion hps
                  · exact ⟨r0, hr0, hm⟩

/-- C9: asymmetric malformed-row handling.  Base dictionary
(`_load_lexicon`): loading never aborts — it yields one entry per row in
order — and a row whose frequency (resp. flag) field is missing or fails to
parse gets the default `freq = 0.0` (resp. `is_lem = False`).  Custom overlay
(`load_custom_lexicon`): if any row (with non-empty stripped ortho) has a
missing column or an unparseable numeric field, the whole load returns
`None` — no partial overlay is produced.  This holds for every parser pair
`pf`, `pint`. -/
theorem lexicon_loading_asymmetry (pf : Str → Option ℚ)
    (pint : Str → Option ℤ) :
    (∀ rows : List BaseRow,
      load_lexicon pf pint rows = rows.map (mkBaseEntry pf pint) ∧
      (load_lexicon pf pint rows).length = rows.length) ∧
    (∀ r : BaseRow, (∀ s, r.freqField = some s → pf s = none) →
      (mkBaseEntry pf pint r).freq = some 0) ∧
    (∀ r : BaseRow, (∀ s, r.islemField = some s → pint s = none) →
      (mkBaseEntry pf pint r).is_lem = false) ∧
    (∀ rows : List CustomRow, (∃ r ∈ rows, malformedCustomRow pf pint r) →
      load_custom_lexicon pf pint rows = none) := by
  refine ⟨fun rows => ⟨rfl, by simp [load_lexicon]⟩, ?_, ?_, ?_⟩
  · intro r h
    simp only [mkBaseEntry, rowFreq]
    cases hf : r.freqField with
    | none => rfl
    | some s =>
      show some ((pf s).getD 0) = some 0
      rw [h s hf]
      rfl
  · intro r h
    simp only [mkBaseEntry, rowIsLem]
    cases hf : r.islemField with
    | none => rfl
    | some s =>
      show (match pint s with | none => false | some n => n != 0) = false
      rw [h s hf]
  · intro rows hex
    exact load_custom_lexicon_go_abort pf pint rows [] hex

/-- Witness for C9: a one-row overlay with a missing `lemme` column loads to
`None`. -/
theorem lexicon_loading_asymmetry_witness :
    load_custom_lexicon (fun _ => none) (fun _ => none)
      [⟨some ("x".toList), none, none, none, none⟩] = none :=
  (lexicon_loading_asymmetry (fun _ => none) (fun _ => none)).2.2.2
    [⟨some ("x".toList), none, none, none, none⟩]
    ⟨⟨some ("x".toList), none, none, none, none⟩, List.mem_singleton_self _,
      by decide, Or.inl rfl⟩

end FRC
